import Mathlib

/-!
Verification of the Turing-machine builder core: a shallow embedding of the
specification model (`TuringMachineSpec`, form-data `build`), the persistence
layer (serialize/deserialize), and the execution engine
(`createRuntime` / `read` / `write` / `move` / `step`), with theorems
settling the behavioural claims about them.

Modelling conventions:
- JS strings become `String`; a JS `Set<string>` becomes the `List String`
  of its elements in insertion order (a real JS set is duplicate-free);
  `Set.has` becomes decidable list membership.
- The transition `Record<State, Partial<Record<Symbol, Transition>>>` is
  modelled by its lookup function `State → Symbol → Option Transition`
  (a missing state row, `delta[state] || ` empty, is folded into `none`).
- The mutating engine functions become pure functions returning the updated
  runtime; `step`, which returns a boolean in the source (`false` = halted),
  returns the pair (updated runtime, boolean).
- `throw new Error(...)` becomes `Except.error` with a constructor per
  distinct error site.
- The head index is an `Int`, as in the source, where it transiently becomes
  `-1` inside `move` before the left-growth fix-up.
-/

namespace TM

abbrev State := String
abbrev Symbol := String

inductive Direction where
  | L
  | R
  | S
deriving DecidableEq, Repr

/-- δ entries: `{ nextState, write, move }`. -/
structure Transition where
  nextState : State
  write : Symbol
  move : Direction
deriving DecidableEq, Repr

/-- Lookup function of the two-level transition record: `delta[state]?.[symbol]`,
with a missing row (`delta[state] || ` the empty row) giving `none`. -/
def Delta := State → Symbol → Option Transition

structure TuringMachineSpec where
  Q : List State
  Sigma : List Symbol
  Gamma : List Symbol
  delta : Delta
  q0 : State
  qAccept : State
  qReject : State
  blank : Symbol

structure TMRuntime where
  spec : TuringMachineSpec
  tape : List Symbol
  head : Int
  state : State
  steps : Nat

/-- The two `throw new Error(...)` sites of `createRuntime`. -/
inductive CreateError where
  | symbolNotInSigma (c : Symbol)
  | blankInSigma (b : Symbol)
deriving DecidableEq, Repr

/-- The `input.split` of the source: one single-character symbol per character. -/
def splitChars (input : String) : List Symbol :=
  input.toList.map (fun c => String.singleton c)

/-- Embeds `createRuntime`: the for-loop throws at the first input character
outside `Sigma` (modelled by `List.find?`), then the blank symbol is checked
against `Sigma`, then the runtime is assembled. -/
def createRuntime (spec : TuringMachineSpec) (input : String) :
    Except CreateError TMRuntime :=
  match (splitChars input).find? (fun c => !(decide (c ∈ spec.Sigma))) with
  | some c => .error (.symbolNotInSigma c)
  | none =>
    if spec.blank ∈ spec.Sigma then
      .error (.blankInSigma spec.blank)
    else
      .ok { spec := spec
            tape := if (splitChars input).isEmpty then [spec.blank]
                    else splitChars input
            head := 0
            state := spec.q0
            steps := 0 }

/-- Embeds `read`: `tape[head] ?? blank` — a JS index read is `undefined`
for a negative index or one at/past the length, so those give `blank`. -/
def read (rt : TMRuntime) : Symbol :=
  if 0 ≤ rt.head then (rt.tape.get? rt.head.toNat).getD rt.spec.blank
  else rt.spec.blank

/-- Embeds `write`: `tape[head] = s`. The engine keeps `0 ≤ head < length`
(theorem for C8 below), where the JS assignment and `List.set` agree. -/
def write (rt : TMRuntime) (s : Symbol) : TMRuntime :=
  { rt with tape := rt.tape.set rt.head.toNat s }

/-- Embeds `move`: decrement/increment head, growing the tape by one blank
cell when the head leaves the materialized range. -/
def move (rt : TMRuntime) (dir : Direction) : TMRuntime :=
  match dir with
  | .L =>
    let h := rt.head - 1
    if h < 0 then { rt with tape := rt.spec.blank :: rt.tape, head := 0 }
    else { rt with head := h }
  | .R =>
    let h := rt.head + 1
    if (rt.tape.length : Int) ≤ h then
      { rt with tape := rt.tape ++ [rt.spec.blank], head := h }
    else { rt with head := h }
  | .S => rt

/-- Embeds `step`; the returned boolean is the source's return value
(`false` = halting). -/
def step (rt : TMRuntime) : TMRuntime × Bool :=
  if rt.state = rt.spec.qAccept ∨ rt.state = rt.spec.qReject then (rt, false)
  else
    let sym := read rt
    match rt.spec.delta rt.state sym with
    | none =>
      ({ rt with state := rt.spec.qReject, steps := rt.steps + 1 }, false)
    | some tr =>
      let rt1 := write rt tr.write
      let rt2 := move rt1 tr.move
      let rt3 := { rt2 with state := tr.nextState, steps := rt2.steps + 1 }
      (rt3, !(rt3.state == rt3.spec.qAccept || rt3.state == rt3.spec.qReject))

/-- Iterated `step`, keeping the updated runtime. -/
def stepN : Nat → TMRuntime → TMRuntime
  | 0, rt => rt
  | n + 1, rt => stepN n (step rt).1

/-- Modelled from the spec: the reference single-step algorithm of §4.2 as the
claim states it for a non-halted runtime — read the symbol under the head,
look up `(currentState, symbol)`; if present write, move, set the next state
and count the step, halting exactly when the new state is the accept or
reject state; if absent implicitly reject, counting the step. -/
def referenceStep (rt : TMRuntime) : TMRuntime × Bool :=
  let sym := read rt
  match rt.spec.delta rt.state sym with
  | none =>
    ({ rt with state := rt.spec.qReject, steps := rt.steps + 1 }, false)
  | some tr =>
    let rt1 := write rt tr.write
    let rt2 := move rt1 tr.move
    let rt3 := { rt2 with state := tr.nextState, steps := rt2.steps + 1 }
    (rt3, !(rt3.state == rt3.spec.qAccept || rt3.state == rt3.spec.qReject))

/-- A fixed non-halted runtime used to instantiate hypotheses of the
engine theorems at a concrete input. -/
def sampleRuntime : TMRuntime :=
  { spec :=
      { Q := ["q0", "qAccept", "qReject"]
        Sigma := ["0"]
        Gamma := ["0", "□"]
        delta := fun _ _ => none
        q0 := "q0"
        qAccept := "qAccept"
        qReject := "qReject"
        blank := "□" }
    tape := ["0"]
    head := 0
    state := "q0"
    steps := 0 }

/-- A fixed runtime already in its accept state. -/
def haltedRuntime : TMRuntime :=
  { sampleRuntime with state := "qAccept" }

/-- C1: for a runtime whose current state is neither the accept nor the
reject state, one call to `step` behaves exactly as the reference single-step
algorithm (lookup, write, move, state update, one step counted, halting
signalled exactly on reaching the accept/reject state, implicit reject on a
missing entry); both are total functions, so no error is raised. -/
theorem step_matches_reference (rt : TMRuntime)
    (h1 : rt.state ≠ rt.spec.qAccept) (h2 : rt.state ≠ rt.spec.qReject) :
    step rt = referenceStep rt := by
  unfold step
  rw [if_neg (by rintro (h | h) <;> [exact h1 h; exact h2 h])]
  rfl

/-- Witness for C1 at a concrete non-halted runtime. -/
theorem step_matches_reference_witness :
    step sampleRuntime = referenceStep sampleRuntime :=
  step_matches_reference sampleRuntime (by decide) (by decide)

/-- C4: on a runtime whose current state is the accept or reject state,
`step` returns the halting signal and the entire runtime — tape, head,
current state and step count — unchanged, and so does any number of further
calls. -/
theorem step_idempotent_at_halt (rt : TMRuntime)
    (h : rt.state = rt.spec.qAccept ∨ rt.state = rt.spec.qReject) :
    step rt = (rt, false) ∧ ∀ n, stepN n rt = rt := by
  have hstep : step rt = (rt, false) := by
    unfold step
    rw [if_pos h]
  refine ⟨hstep, fun n => ?_⟩
  induction n with
  | zero => rfl
  | succ n ih =>
    show stepN n (step rt).1 = rt
    rw [hstep]
    exact ih

/-- Witness for C4 at a concrete halted runtime. -/
theorem step_idempotent_at_halt_witness :
    step haltedRuntime = (haltedRuntime, false) ∧
      stepN 3 haltedRuntime = haltedRuntime := by
  have h := step_idempotent_at_halt haltedRuntime (Or.inl rfl)
  exact ⟨h.1, h.2 3⟩

/-- C5: the case analysis of `move` — moving left from index 0 prepends one
blank cell and re-anchors the head at 0, keeping every pre-existing symbol at
its index shifted by one; moving right from the last index appends one blank
cell and increments the head; in the interior Left decrements, Right
increments and Stay changes nothing, the tape untouched. -/
theorem move_cases (rt : TMRuntime) :
    (rt.head = 0 →
      move rt .L = { rt with tape := rt.spec.blank :: rt.tape, head := 0 } ∧
      ∀ i, (move rt .L).tape.get? (i + 1) = rt.tape.get? i) ∧
    (0 < rt.head → move rt .L = { rt with head := rt.head - 1 }) ∧
    (rt.head + 1 = (rt.tape.length : Int) →
      move rt .R = { rt with tape := rt.tape ++ [rt.spec.blank],
                             head := rt.head + 1 }) ∧
    (rt.head + 1 < (rt.tape.length : Int) →
      move rt .R = { rt with head := rt.head + 1 }) ∧
    move rt .S = rt := by
  refine ⟨fun h0 => ?_, fun hpos => ?_, fun hlast => ?_, fun hlt => ?_, rfl⟩
  · have hL : move rt .L =
        { rt with tape := rt.spec.blank :: rt.tape, head := 0 } := by
      show (if rt.head - 1 < 0 then _ else _) = _
      rw [if_pos (by omega)]
    exact ⟨hL, fun i => by rw [hL]; rfl⟩
  · show (if rt.head - 1 < 0 then _ else _) = _
    rw [if_neg (by omega)]
  · show (if (rt.tape.length : Int) ≤ rt.head + 1 then _ else _) = _
    rw [if_pos (by omega)]
  · show (if (rt.tape.length : Int) ≤ rt.head + 1 then _ else _) = _
    rw [if_neg (by omega)]

/-- Witness for C5, instantiating each hypothesised case of `move_cases` at a
concrete runtime: `sampleRuntime` sits at index 0 of the one-cell tape
(covering the left-growth and right-growth cases), and a variant at index 1
of a two-cell tape covers the interior moves. -/
theorem move_cases_witness :
    (move sampleRuntime .L =
      { sampleRuntime with tape := ["□", "0"], head := 0 } ∧
     (move sampleRuntime .L).tape.get? 1 = sampleRuntime.tape.get? 0) ∧
    move sampleRuntime .R =
      { sampleRuntime with tape := ["0", "□"], head := 1 } ∧
    move { sampleRuntime with tape := ["0", "0"], head := 1 } .L =
      { sampleRuntime with tape := ["0", "0"], head := 0 } ∧
    move { sampleRuntime with tape := ["0", "0"], head := 0 } .R =
      { sampleRuntime with tape := ["0", "0"], head := 1 } ∧
    move sampleRuntime .S = sampleRuntime := by
  refine ⟨⟨?_, ?_⟩, ?_, ?_, ?_, ?_⟩
  · exact ((move_cases sampleRuntime).1 rfl).1
  · exact ((move_cases sampleRuntime).1 rfl).2 0
  · exact (move_cases sampleRuntime).2.2.1 (by decide)
  · exact (move_cases { sampleRuntime with tape := ["0", "0"], head := 1 }).2.1
      (by decide)
  · exact (move_cases { sampleRuntime with tape := ["0", "0"], head := 0
      }).2.2.2.1 (by decide)
  · exact (move_cases sampleRuntime).2.2.2.2

/-- C3 counterexample: a specification whose blank symbol sits inside the
input alphabet makes `createRuntime` fail on the input `"0"` even though
every character of that input is in the input alphabet — refuting
`fails only if the input contains a character outside the input alphabet`. -/
def blankInSigmaSpec : TuringMachineSpec :=
  { Q := ["q0", "qAccept", "qReject"]
    Sigma := ["0", "□"]
    Gamma := ["0", "□"]
    delta := fun _ _ => none
    q0 := "q0"
    qAccept := "qAccept"
    qReject := "qReject"
    blank := "□" }

/-- C3, counterexample to the claim as stated: `createRuntime` fails on
`blankInSigmaSpec` with input `"0"` although each of the input's characters
belongs to the input alphabet. -/
theorem createRuntime_fails_without_bad_char :
    createRuntime blankInSigmaSpec "0" =
      .error (.blankInSigma "□") ∧
    (splitChars "0").all (fun c => decide (c ∈ blankInSigmaSpec.Sigma)) =
      true := by
  constructor <;> rfl

/-- C3, amended: `createRuntime` fails iff the input has a character outside
the input alphabet or the blank symbol lies in the input alphabet; on success
the tape is exactly the input's characters in order (one blank cell when the
input is empty), the head is at 0, the state is the start state and the step
count is 0. -/
theorem createRuntime_characterisation (sp : TuringMachineSpec)
    (input : String) :
    ((∃ e, createRuntime sp input = .error e) ↔
      (∃ c ∈ splitChars input, c ∉ sp.Sigma) ∨ sp.blank ∈ sp.Sigma) ∧
    ∀ rt, createRuntime sp input = .ok rt →
      rt.tape = (if splitChars input = [] then [sp.blank]
                 else splitChars input) ∧
      rt.head = 0 ∧ rt.state = sp.q0 ∧ rt.steps = 0 ∧ rt.spec = sp := by
  rcases hfind : (splitChars input).find?
      (fun c => !(decide (c ∈ sp.Sigma))) with _ | c
  · have hall : ∀ c ∈ splitChars input, c ∈ sp.Sigma := by
      intro c hc
      have := List.find?_eq_none.mp hfind c hc
      simpa using this
    by_cases hb : sp.blank ∈ sp.Sigma
    · have hrun : createRuntime sp input = .error (.blankInSigma sp.blank) := by
        unfold createRuntime
        rw [hfind, if_pos hb]
      rw [hrun]
      refine ⟨⟨fun _ => Or.inr hb, fun _ => ⟨_, rfl⟩⟩, ?_⟩
      intro rt h
      exact absurd h (by simp)
    · have hrun : createRuntime sp input =
          .ok { spec := sp
                tape := if (splitChars input).isEmpty then [sp.blank]
                        else splitChars input
                head := 0, state := sp.q0, steps := 0 } := by
        unfold createRuntime
        rw [hfind, if_neg hb]
      rw [hrun]
      constructor
      · simp only [iff_def]
        refine ⟨fun ⟨e, he⟩ => absurd he (by simp), ?_⟩
        rintro (⟨c, hc, hcs⟩ | hbs)
        · exact absurd (hall c hc) hcs
        · exact absurd hbs hb
      · intro rt h
        have : rt = { spec := sp
                      tape := if (splitChars input).isEmpty then [sp.blank]
                              else splitChars input
                      head := 0, state := sp.q0, steps := 0 } := by
          simpa using h.symm
        subst this
        refine ⟨?_, rfl, rfl, rfl, rfl⟩
        simp [List.isEmpty_iff]
  · have hc : c ∈ splitChars input ∧ c ∉ sp.Sigma := by
      refine ⟨List.mem_of_find?_eq_some hfind, ?_⟩
      have := List.find?_some hfind
      simpa using this
    have hrun : createRuntime sp input = .error (.symbolNotInSigma c) := by
      unfold createRuntime
      rw [hfind]
    rw [hrun]
    refine ⟨⟨fun _ => Or.inl ⟨c, hc.1, hc.2⟩, fun _ => ⟨_, rfl⟩⟩, ?_⟩
    intro rt h
    exact absurd h (by simp)

/-- Witness for C3 at a concrete specification and inputs: the sample spec
accepts input `"0"` producing the documented initial runtime, and the failure
characterisation holds there as well. -/
theorem createRuntime_characterisation_witness :
    ((∃ e, createRuntime sampleRuntime.spec "0" = .error e) ↔
      (∃ c ∈ splitChars "0", c ∉ sampleRuntime.spec.Sigma) ∨
        sampleRuntime.spec.blank ∈ sampleRuntime.spec.Sigma) ∧
    sampleRuntime.tape = (if splitChars "0" = [] then
        [sampleRuntime.spec.blank] else splitChars "0") ∧
    sampleRuntime.head = 0 ∧ sampleRuntime.state = sampleRuntime.spec.q0 ∧
    sampleRuntime.steps = 0 ∧ sampleRuntime.spec = sampleRuntime.spec := by
  have h := createRuntime_characterisation sampleRuntime.spec "0"
  exact ⟨h.1, h.2 sampleRuntime rfl⟩

/-- C10: in `createRuntime` the per-character input-alphabet scan runs before
the defensive blank-in-input-alphabet check — whenever the input decomposes
as good characters, then a first bad character, the reported error is
`symbolNotInSigma` for that character (whatever the blank's status); the
`blankInSigma` error is reported only when every input character is in the
input alphabet. -/
theorem createRuntime_input_check_first (sp : TuringMachineSpec)
    (input : String) :
    (∀ pre c rest, splitChars input = pre ++ c :: rest →
      (∀ c2 ∈ pre, c2 ∈ sp.Sigma) → c ∉ sp.Sigma →
      createRuntime sp input = .error (.symbolNotInSigma c)) ∧
    (∀ b, createRuntime sp input = .error (.blankInSigma b) →
      ∀ c ∈ splitChars input, c ∈ sp.Sigma) := by
  constructor
  · intro pre c rest hdecomp hpre hc
    have hfind : ∀ pre2 : List Symbol, (∀ c2 ∈ pre2, c2 ∈ sp.Sigma) →
        (pre2 ++ c :: rest).find?
          (fun c2 => !(decide (c2 ∈ sp.Sigma))) = some c := by
      intro pre2
      induction pre2 with
      | nil => intro _; simp [List.find?_cons, hc]
      | cons p ps ih =>
        intro hpre2
        have hp : p ∈ sp.Sigma := hpre2 p (by simp)
        have := ih (fun c2 h2 => hpre2 c2 (by simp [h2]))
        simpa [List.find?_cons, hp] using this
    have hfind2 : (splitChars input).find?
        (fun c2 => !(decide (c2 ∈ sp.Sigma))) = some c := by
      rw [hdecomp]
      exact hfind pre hpre
    unfold createRuntime
    rw [hfind2]
  · intro b herr c hc
    rcases hfind : (splitChars input).find?
        (fun c2 => !(decide (c2 ∈ sp.Sigma))) with _ | c2
    · have := List.find?_eq_none.mp hfind c hc
      simpa using this
    · unfold createRuntime at herr
      rw [hfind] at herr
      exact absurd herr (by simp)

/-- Witness for C10: with the blank inside the input alphabet and the input
`"10"` whose first character is outside it, the error is the
symbol-not-in-input-alphabet error for that first character. -/
theorem createRuntime_input_check_first_witness :
    createRuntime blankInSigmaSpec "10" =
      .error (.symbolNotInSigma "1") := by
  exact (createRuntime_input_check_first blankInSigmaSpec "10").1
    [] "1" ["0"] rfl (by simp) (by decide)

/-- The engine invariant: the head index is inside the materialized tape. -/
def headInv (rt : TMRuntime) : Prop :=
  0 ≤ rt.head ∧ rt.head < (rt.tape.length : Int)

lemma createRuntime_ok_init (sp : TuringMachineSpec) (input : String)
    (rt : TMRuntime) (h : createRuntime sp input = .ok rt) :
    rt.head = 0 ∧ rt.tape ≠ [] := by
  unfold createRuntime at h
  rcases hfind : (splitChars input).find?
      (fun c => !(decide (c ∈ sp.Sigma))) with _ | c
  · rw [hfind] at h
    by_cases hb : sp.blank ∈ sp.Sigma
    · rw [if_pos hb] at h
      exact absurd h (by simp)
    · rw [if_neg hb] at h
      have hrt : rt = { spec := sp
                        tape := if (splitChars input).isEmpty then [sp.blank]
                                else splitChars input
                        head := 0, state := sp.q0, steps := 0 } := by
        simpa using h.symm
      subst hrt
      refine ⟨rfl, ?_⟩
      by_cases he : (splitChars input).isEmpty
      · simp [he]
      · simp only [if_neg he]
        simpa [List.isEmpty_iff] using he
  · rw [hfind] at h
    exact absurd h (by simp)

lemma headInv_write (rt : TMRuntime) (s : Symbol) (h : headInv rt) :
    headInv (write rt s) := by
  obtain ⟨h1, h2⟩ := h
  refine ⟨h1, ?_⟩
  show rt.head < ((rt.tape.set rt.head.toNat s).length : Int)
  rw [List.length_set]
  exact h2

lemma headInv_move (rt : TMRuntime) (d : Direction) (h : headInv rt) :
    headInv (move rt d) := by
  obtain ⟨h1, h2⟩ := h
  cases d with
  | L =>
    show headInv (if rt.head - 1 < 0 then _ else _)
    by_cases hc : rt.head - 1 < 0
    · rw [if_pos hc]
      refine ⟨le_refl 0, ?_⟩
      show (0 : Int) < ((rt.spec.blank :: rt.tape).length : Int)
      simp
    · rw [if_neg hc]
      refine ⟨?_, ?_⟩
      · show (0 : Int) ≤ rt.head - 1
        omega
      · show rt.head - 1 < (rt.tape.length : Int)
        omega
  | R =>
    show headInv (if (rt.tape.length : Int) ≤ rt.head + 1 then _ else _)
    by_cases hc : (rt.tape.length : Int) ≤ rt.head + 1
    · rw [if_pos hc]
      refine ⟨?_, ?_⟩
      · show (0 : Int) ≤ rt.head + 1
        omega
      · show rt.head + 1 < ((rt.tape ++ [rt.spec.blank]).length : Int)
        rw [List.length_append, List.length_singleton]
        push_cast
        omega
    · rw [if_neg hc]
      refine ⟨?_, ?_⟩
      · show (0 : Int) ≤ rt.head + 1
        omega
      · show rt.head + 1 < (rt.tape.length : Int)
        omega
  | S => exact ⟨h1, h2⟩

lemma headInv_step (rt : TMRuntime) (h : headInv rt) : headInv (step rt).1 := by
  unfold step
  by_cases hh : rt.state = rt.spec.qAccept ∨ rt.state = rt.spec.qReject
  · rw [if_pos hh]
    exact h
  · rw [if_neg hh]
    rcases hd : rt.spec.delta rt.state (read rt) with _ | tr
    · simp only [hd]
      exact ⟨h.1, h.2⟩
    · simp only [hd]
      exact headInv_move _ _ (headInv_write _ _ h)

lemma headInv_stepN (n : Nat) (rt : TMRuntime) (h : headInv rt) :
    headInv (stepN n rt) := by
  induction n generalizing rt with
  | zero => exact h
  | succ n ih => exact ih _ (headInv_step rt h)

/-- C8: starting from any runtime produced by `createRuntime` and advancing
by any number of `step` calls, the head stays within `0 ≤ head < tape
length`, the tape stays non-empty, and `read` returns the actual tape cell
under the head — the out-of-range blank fallback of `read` is never taken on
engine-produced runtimes. -/
theorem engine_head_in_range (sp : TuringMachineSpec) (input : String)
    (rt : TMRuntime) (h : createRuntime sp input = .ok rt) (n : Nat) :
    0 ≤ (stepN n rt).head ∧
    (stepN n rt).head < ((stepN n rt).tape.length : Int) ∧
    (stepN n rt).tape ≠ [] ∧
    (stepN n rt).tape.get? (stepN n rt).head.toNat =
      some (read (stepN n rt)) := by
  obtain ⟨hhead, htape⟩ := createRuntime_ok_init sp input rt h
  have h0 : headInv rt := by
    refine ⟨by rw [hhead], ?_⟩
    rw [hhead]
    have : 0 < rt.tape.length := List.length_pos.mpr htape
    exact_mod_cast this
  obtain ⟨h1, h2⟩ := headInv_stepN n rt h0
  have hlt : (stepN n rt).head.toNat < (stepN n rt).tape.length := by omega
  rcases hget : (stepN n rt).tape.get? (stepN n rt).head.toNat with _ | s
  · rw [List.get?_eq_none] at hget
    omega
  · refine ⟨h1, h2, ?_, ?_⟩
    · intro hnil
      rw [hnil] at h2
      simp at h2
      omega
    · have hread : read (stepN n rt) = s := by
        unfold read
        rw [if_pos h1, hget]
        rfl
      rw [hread]

/-- Witness for C8 at a concrete created runtime, advanced two steps. -/
theorem engine_head_in_range_witness :
    0 ≤ (stepN 2 sampleRuntime).head ∧
    (stepN 2 sampleRuntime).head <
      ((stepN 2 sampleRuntime).tape.length : Int) ∧
    (stepN 2 sampleRuntime).tape ≠ [] ∧
    (stepN 2 sampleRuntime).tape.get? (stepN 2 sampleRuntime).head.toNat =
      some (read (stepN 2 sampleRuntime)) :=
  engine_head_in_range sampleRuntime.spec "0" sampleRuntime rfl 2

/-- One row of the form's transition table: `(fromState, readSymbol,
toState, writeSymbol, direction)`. -/
structure TransitionTuple where
  fromState : State
  readSymbol : Symbol
  toState : State
  writeSymbol : Symbol
  direction : Direction
deriving DecidableEq, Repr

/-- The transition object `buildTuringMachineSpec` stores for a tuple. -/
def TransitionTuple.toTransition (t : TransitionTuple) : Transition :=
  { nextState := t.toState, write := t.writeSymbol, move := t.direction }

/-- The empty delta record. -/
def emptyDelta : Delta := fun _ _ => none

/-- The body of the `forEach` loop of `buildTuringMachineSpec`:
`delta[t.fromState][t.readSymbol] = { nextState, write, move }`, observed
through the lookup function. -/
def insertTransition (d : Delta) (t : TransitionTuple) : Delta :=
  fun s a =>
    if s = t.fromState ∧ a = t.readSymbol then some t.toTransition else d s a

/-- The `forEach` loop over the form's transitions, in order. -/
def mkDelta (ts : List TransitionTuple) : Delta :=
  ts.foldl insertTransition emptyDelta

/-- The form data handed to `buildTuringMachineSpec`. -/
structure FormData where
  states : List State
  inputAlphabet : List Symbol
  tapeAlphabet : List Symbol
  blankSymbol : Symbol
  startState : State
  acceptState : State
  rejectState : State
  transitions : List TransitionTuple

/-- The JS `new Set(list)` constructor: keeps the first occurrence of each
element, in insertion order. -/
def jsSet (l : List String) : List String :=
  l.foldl (fun acc x => if x ∈ acc then acc else acc ++ [x]) []

/-- Embeds `buildTuringMachineSpec` (and the identical `buildTuringMachine`
body): assembles the delta record from the transition rows and packs the
form fields, with no invariant validation anywhere; it is a pure total
function, so it cannot fail and does not mutate its arguments. -/
def buildTuringMachineSpec (fd : FormData) : TuringMachineSpec :=
  { Q := jsSet fd.states
    Sigma := jsSet fd.inputAlphabet
    Gamma := jsSet fd.tapeAlphabet
    delta := mkDelta fd.transitions
    q0 := fd.startState
    qAccept := fd.acceptState
    qReject := fd.rejectState
    blank := fd.blankSymbol }

lemma mem_jsSet_foldl (l : List String) :
    ∀ (acc : List String) (x : String),
      x ∈ l.foldl (fun acc y => if y ∈ acc then acc else acc ++ [y]) acc ↔
        x ∈ acc ∨ x ∈ l := by
  induction l with
  | nil => simp
  | cons y l ih =>
    intro acc x
    simp only [List.foldl_cons]
    rw [ih]
    by_cases hy : y ∈ acc
    · rw [if_pos hy]
      simp only [List.mem_cons]
      constructor
      · rintro (h | h)
        · exact Or.inl h
        · exact Or.inr (Or.inr h)
      · rintro (h | h | h)
        · exact Or.inl h
        · exact Or.inl (h ▸ hy)
        · exact Or.inr h
    · rw [if_neg hy]
      simp only [List.mem_append, List.mem_cons, List.not_mem_nil, or_false]
      tauto

lemma mem_jsSet (l : List String) (x : String) : x ∈ jsSet l ↔ x ∈ l := by
  unfold jsSet
  rw [mem_jsSet_foldl]
  simp

lemma mkDelta_foldl (ts : List TransitionTuple) :
    ∀ (d : Delta) (s : State) (a : Symbol),
      (ts.foldl insertTransition d) s a =
        match ts.reverse.find?
            (fun t => t.fromState == s && t.readSymbol == a) with
        | some t => some t.toTransition
        | none => d s a := by
  induction ts with
  | nil => intro d s a; rfl
  | cons t ts ih =>
    intro d s a
    simp only [List.foldl_cons, List.reverse_cons]
    rw [ih, List.find?_append]
    rcases hf : ts.reverse.find?
        (fun u => u.fromState == s && u.readSymbol == a) with _ | u
    · rw [hf]
      show insertTransition d t s a = _
      unfold insertTransition
      by_cases hc : s = t.fromState ∧ a = t.readSymbol
      · have hft : [t].find?
            (fun u => u.fromState == s && u.readSymbol == a) = some t := by
          have hpt : (t.fromState == s && t.readSymbol == a) = true := by
            simp only [Bool.and_eq_true, beq_iff_eq]
            exact ⟨hc.1.symm, hc.2.symm⟩
          simp [List.find?_cons, hpt]
        rw [if_pos hc, hft]
        rfl
      · have hft : [t].find?
            (fun u => u.fromState == s && u.readSymbol == a) = none := by
          rw [List.find?_eq_none]
          intro u hu
          rw [List.mem_singleton] at hu
          subst hu
          simp only [Bool.and_eq_true, beq_iff_eq, not_and]
          intro h1 h2
          exact hc ⟨h1.symm, h2.symm⟩
        rw [if_neg hc, hft]
        rfl
    · rw [hf]
      rfl

/-- C2 counterexample input: form data whose start state `"qX"` is not a
member of the state set — a §3 invariant violation. -/
def malformedForm : FormData :=
  { states := ["q0", "qAccept", "qReject"]
    inputAlphabet := ["0"]
    tapeAlphabet := ["0", "□"]
    blankSymbol := "□"
    startState := "qX"
    acceptState := "qAccept"
    rejectState := "qReject"
    transitions := [] }

/-- C2, counterexample to the claim as stated: on form data violating the
`startState ∈ states` invariant, `build` does not fail — it returns a
Specification (whose start state is outside its state set). -/
theorem build_succeeds_on_malformed :
    (buildTuringMachineSpec malformedForm).q0 = "qX" ∧
    "qX" ∉ (buildTuringMachineSpec malformedForm).Q := by
  refine ⟨rfl, ?_⟩
  decide

/-- C2, amended: `build` performs no invariant validation and succeeds on
every input (it is a pure total function of the form data, so the arguments
are not mutated and no error is ever raised); it returns the Specification
whose set fields hold exactly the form's states and alphabets, whose scalar
fields are the form's scalars, and whose transition table maps `(s, a)` to
the last form row with source `(s, a)` — duplicates resolved
last-write-wins. -/
theorem build_characterisation (fd : FormData) :
    (∀ x, x ∈ (buildTuringMachineSpec fd).Q ↔ x ∈ fd.states) ∧
    (∀ x, x ∈ (buildTuringMachineSpec fd).Sigma ↔ x ∈ fd.inputAlphabet) ∧
    (∀ x, x ∈ (buildTuringMachineSpec fd).Gamma ↔ x ∈ fd.tapeAlphabet) ∧
    (buildTuringMachineSpec fd).q0 = fd.startState ∧
    (buildTuringMachineSpec fd).qAccept = fd.acceptState ∧
    (buildTuringMachineSpec fd).qReject = fd.rejectState ∧
    (buildTuringMachineSpec fd).blank = fd.blankSymbol ∧
    ∀ s a, (buildTuringMachineSpec fd).delta s a =
      (fd.transitions.reverse.find?
          (fun t => t.fromState == s && t.readSymbol == a)).map
        TransitionTuple.toTransition := by
  refine ⟨fun x => mem_jsSet _ x, fun x => mem_jsSet _ x,
    fun x => mem_jsSet _ x, rfl, rfl, rfl, rfl, fun s a => ?_⟩
  show mkDelta fd.transitions s a = _
  unfold mkDelta
  rw [mkDelta_foldl]
  rcases hf : fd.transitions.reverse.find?
      (fun t => t.fromState == s && t.readSymbol == a) with _ | t <;>
    rw [hf] <;> rfl

/-- The serializable shape: set fields as ordered lists, transition record
and scalar fields carried as they are. The on-wire step
(`JSON.stringify` then `JSON.parse`) round-trips this plain data and is
modelled as the identity on it. -/
structure SerializedSpec where
  Q : List State
  Sigma : List Symbol
  Gamma : List Symbol
  delta : Delta
  q0 : State
  qAccept : State
  qReject : State
  blank : Symbol

/-- Embeds `serializeTuringMachineSpec`: `Array.from` lists a JS set's
elements in insertion order — exactly the list the model stores — and the
spread carries `delta` and the scalar fields through unchanged. -/
def serializeTuringMachineSpec (s : TuringMachineSpec) : SerializedSpec :=
  { Q := s.Q, Sigma := s.Sigma, Gamma := s.Gamma, delta := s.delta
    q0 := s.q0, qAccept := s.qAccept, qReject := s.qReject
    blank := s.blank }

/-- Embeds `deserializeTuringMachineSpec`: rebuilds the three sets with
`new Set(...)` and spreads the remaining fields through unchanged. -/
def deserializeTuringMachineSpec (d : SerializedSpec) : TuringMachineSpec :=
  { Q := jsSet d.Q, Sigma := jsSet d.Sigma, Gamma := jsSet d.Gamma
    delta := d.delta, q0 := d.q0, qAccept := d.qAccept
    qReject := d.qReject, blank := d.blank }

/-- C7: deserializing the serialization of any Specification reconstructs an
equal Specification — the set-valued fields `Q`, `Sigma`, `Gamma` agree as
sets (same membership), and the transition table and the four scalar fields
are exactly equal. -/
theorem deserialize_serialize_roundtrip (s : TuringMachineSpec) :
    (∀ x, x ∈ (deserializeTuringMachineSpec
        (serializeTuringMachineSpec s)).Q ↔ x ∈ s.Q) ∧
    (∀ x, x ∈ (deserializeTuringMachineSpec
        (serializeTuringMachineSpec s)).Sigma ↔ x ∈ s.Sigma) ∧
    (∀ x, x ∈ (deserializeTuringMachineSpec
        (serializeTuringMachineSpec s)).Gamma ↔ x ∈ s.Gamma) ∧
    (deserializeTuringMachineSpec (serializeTuringMachineSpec s)).delta =
      s.delta ∧
    (deserializeTuringMachineSpec (serializeTuringMachineSpec s)).q0 =
      s.q0 ∧
    (deserializeTuringMachineSpec (serializeTuringMachineSpec s)).qAccept =
      s.qAccept ∧
    (deserializeTuringMachineSpec (serializeTuringMachineSpec s)).qReject =
      s.qReject ∧
    (deserializeTuringMachineSpec (serializeTuringMachineSpec s)).blank =
      s.blank :=
  ⟨fun x => mem_jsSet _ x, fun x => mem_jsSet _ x, fun x => mem_jsSet _ x,
    rfl, rfl, rfl, rfl, rfl⟩

/-- The halting test the source driver reads off a runtime (its state equals
the accept or the reject state). -/
def halted (rt : TMRuntime) : Bool :=
  rt.state == rt.spec.qAccept || rt.state == rt.spec.qReject

/-- The caller-side driver of §5: invoke `step` repeatedly until it halts,
bounded by fuel. -/
def run : Nat → TMRuntime → TMRuntime
  | 0, rt => rt
  | n + 1, rt => if halted rt then rt else run n (step rt).1

/-- The final tape with surrounding blank cells stripped. -/
def trimBlanks (blank : Symbol) (tape : List Symbol) : List Symbol :=
  ((tape.dropWhile (· == blank)).reverse.dropWhile (· == blank)).reverse

/-- Create a runtime, drive it with the given fuel, and report whether it
halted, its final state, and its final tape with surrounding blanks
stripped. -/
def runOutcome (sp : TuringMachineSpec) (input : String) (fuel : Nat) :
    Option (Bool × State × List Symbol) :=
  match createRuntime sp input with
  | .error _ => none
  | .ok rt =>
    let f := run fuel rt
    some (halted f, f.state, trimBlanks f.spec.blank f.tape)

/-- The form data of the `binary-increment` example preset of `loadExample`. -/
def binaryIncrementForm : FormData :=
  { states := ["q0", "q1", "qAccept", "qReject"]
    inputAlphabet := ["0", "1"]
    tapeAlphabet := ["0", "1", "□"]
    blankSymbol := "□"
    startState := "q0"
    acceptState := "qAccept"
    rejectState := "qReject"
    transitions :=
      [⟨"q0", "0", "q0", "0", .R⟩,
       ⟨"q0", "1", "q0", "1", .R⟩,
       ⟨"q0", "□", "q1", "□", .L⟩,
       ⟨"q1", "0", "qAccept", "1", .S⟩,
       ⟨"q1", "1", "q1", "0", .L⟩,
       ⟨"q1", "□", "qAccept", "1", .S⟩] }

/-- The binary-increment machine as built from the preset form data. -/
def binaryIncrementSpec : TuringMachineSpec :=
  buildTuringMachineSpec binaryIncrementForm

/-- C6: driving the binary-increment machine to halt on input `"101"` ends
accepted with the final tape spelling `110` (surrounding blanks ignored),
and on input `"111"` ends accepted with final tape `1000`. -/
theorem binary_increment_scenario :
    runOutcome binaryIncrementSpec "101" 20 =
      some (true, "qAccept", ["1", "1", "0"]) ∧
    runOutcome binaryIncrementSpec "111" 20 =
      some (true, "qAccept", ["1", "0", "0", "0"]) := by
  constructor <;> rfl

/-- The form data of the `infinite-loop` example preset of `loadExample`. -/
def infiniteLoopForm : FormData :=
  { states := ["q0", "qAccept", "qReject"]
    inputAlphabet := ["0"]
    tapeAlphabet := ["0", "□"]
    blankSymbol := "□"
    startState := "q0"
    acceptState := "qAccept"
    rejectState := "qReject"
    transitions :=
      [⟨"q0", "0", "q0", "0", .R⟩,
       ⟨"q0", "□", "q0", "□", .L⟩] }

/-- The looping machine as built from the preset form data. -/
def infiniteLoopSpec : TuringMachineSpec :=
  buildTuringMachineSpec infiniteLoopForm

lemma createRuntime_ok_elim (sp : TuringMachineSpec) (input : String)
    (rt : TMRuntime) (h : createRuntime sp input = .ok rt) :
    rt = { spec := sp
           tape := if (splitChars input).isEmpty then [sp.blank]
                   else splitChars input
           head := 0, state := sp.q0, steps := 0 } := by
  unfold createRuntime at h
  rcases hfind : (splitChars input).find?
      (fun c => !(decide (c ∈ sp.Sigma))) with _ | c
  · rw [hfind] at h
    by_cases hb : sp.blank ∈ sp.Sigma
    · rw [if_pos hb] at h
      exact absurd h (by simp)
    · rw [if_neg hb] at h
      simpa using h.symm
  · rw [hfind] at h
    exact absurd h (by simp)

lemma spec_write (rt : TMRuntime) (v : Symbol) : (write rt v).spec = rt.spec :=
  rfl

lemma spec_move (rt : TMRuntime) (d : Direction) :
    (move rt d).spec = rt.spec := by
  cases d with
  | L =>
    show ((if rt.head - 1 < 0 then _ else _ : TMRuntime)).spec = rt.spec
    split <;> rfl
  | R =>
    show ((if (rt.tape.length : Int) ≤ rt.head + 1 then _ else _ :
      TMRuntime)).spec = rt.spec
    split <;> rfl
  | S => rfl

lemma mem_write_tape (rt : TMRuntime) (v s : Symbol)
    (h : s ∈ (write rt v).tape) : s ∈ rt.tape ∨ s = v :=
  List.mem_or_eq_of_mem_set h

lemma mem_move_tape (rt : TMRuntime) (d : Direction) (s : Symbol)
    (h : s ∈ (move rt d).tape) : s ∈ rt.tape ∨ s = rt.spec.blank := by
  cases d with
  | L =>
    revert h
    show s ∈ ((if rt.head - 1 < 0 then _ else _ : TMRuntime)).tape → _
    split
    · intro h
      rcases List.mem_cons.mp h with h | h
      · exact Or.inr h
      · exact Or.inl h
    · exact fun h => Or.inl h
  | R =>
    revert h
    show s ∈ ((if (rt.tape.length : Int) ≤ rt.head + 1 then _ else _ :
      TMRuntime)).tape → _
    split
    · intro h
      rcases List.mem_append.mp h with h | h
      · exact Or.inl h
      · exact Or.inr (List.mem_singleton.mp h)
    · exact fun h => Or.inl h
  | S => exact Or.inl h

lemma read_mem_or_blank (rt : TMRuntime) :
    read rt ∈ rt.tape ∨ read rt = rt.spec.blank := by
  unfold read
  by_cases h0 : 0 ≤ rt.head
  · rw [if_pos h0]
    rcases hg : rt.tape.get? rt.head.toNat with _ | s
    · exact Or.inr rfl
    · exact Or.inl (List.get?_mem hg)
  · rw [if_neg h0]
    exact Or.inr rfl

/-- The inductive invariant of the looping scenario: the runtime carries the
looping machine, sits in state `q0`, and its tape holds only `0` and blank
cells. -/
def loopInv (rt : TMRuntime) : Prop :=
  rt.spec = infiniteLoopSpec ∧ rt.state = "q0" ∧
    ∀ s ∈ rt.tape, s = "0" ∨ s = "□"

lemma loopInv_step (rt : TMRuntime) (h : loopInv rt) :
    loopInv (step rt).1 ∧ (step rt).2 = true := by
  obtain ⟨hspec, hstate, htape⟩ := h
  have hsym : read rt = "0" ∨ read rt = "□" := by
    rcases read_mem_or_blank rt with h | h
    · exact htape _ h
    · rw [hspec] at h
      exact Or.inr h
  have hnh : ¬(rt.state = rt.spec.qAccept ∨ rt.state = rt.spec.qReject) := by
    rw [hspec, hstate]
    decide
  have hmain : ∀ tr : Transition,
      rt.spec.delta rt.state (read rt) = some tr →
      tr.nextState = "q0" → (tr.write = "0" ∨ tr.write = "□") →
      loopInv (step rt).1 ∧ (step rt).2 = true := by
    intro tr hd hnext hwrite
    unfold step
    rw [if_neg hnh]
    simp only [hd]
    have hspec3 : (move (write rt tr.write) tr.move).spec = infiniteLoopSpec := by
      rw [spec_move, spec_write, hspec]
    constructor
    · refine ⟨hspec3, hnext, ?_⟩
      intro s hs
      rcases mem_move_tape _ _ _ hs with h | h
      · rcases mem_write_tape _ _ _ h with h | h
        · exact htape _ h
        · rcases hwrite with hw | hw
          · exact Or.inl (h.trans hw)
          · exact Or.inr (h.trans hw)
      · rw [spec_write, hspec] at h
        exact Or.inr h
    · show (!(tr.nextState == (move (write rt tr.write) tr.move).spec.qAccept
          || tr.nextState ==
            (move (write rt tr.write) tr.move).spec.qReject)) = true
      rw [hspec3, hnext]
      decide
  rcases hsym with h0 | h0
  · refine hmain ⟨"q0", "0", .R⟩ ?_ rfl (Or.inl rfl)
    rw [hspec, hstate, h0]
    rfl
  · refine hmain ⟨"q0", "□", .L⟩ ?_ rfl (Or.inr rfl)
    rw [hspec, hstate, h0]
    rfl

lemma loopInv_stepN (n : Nat) (rt : TMRuntime) (h : loopInv rt) :
    loopInv (stepN n rt) := by
  induction n generalizing rt with
  | zero => exact h
  | succ n ih => exact ih _ (loopInv_step rt h).1

/-- C9: on the two-state looping machine, for every input over `{0}` and
every number of iterations, the runtime is still in `q0` (so never in the
accept or reject state), the halting test is false, and the next `step` call
still returns the continuing signal; `step` is a total function, so no call
raises an error. -/
theorem infinite_loop_never_halts (input : String)
    (hin : ∀ c ∈ input.toList, c = '0') (rt : TMRuntime)
    (hrt : createRuntime infiniteLoopSpec input = .ok rt) (n : Nat) :
    (stepN n rt).state = "q0" ∧ halted (stepN n rt) = false ∧
    (step (stepN n rt)).2 = true := by
  have h0 : loopInv rt := by
    have hrt2 := createRuntime_ok_elim _ _ _ hrt
    subst hrt2
    refine ⟨rfl, rfl, ?_⟩
    intro s hs
    by_cases he : (splitChars input).isEmpty
    · rw [if_pos he, List.mem_singleton] at hs
      exact Or.inr hs
    · rw [if_neg he] at hs
      obtain ⟨c, hc, hsc⟩ := List.mem_map.mp hs
      rw [← hsc, hin c hc]
      exact Or.inl rfl
  have hinv := loopInv_stepN n rt h0
  obtain ⟨hspec, hstate, htp⟩ := hinv
  refine ⟨hstate, ?_, (loopInv_step _ ⟨hspec, hstate, htp⟩).2⟩
  unfold halted
  rw [hspec, hstate]
  decide

/-- The runtime `createRuntime` builds for the looping machine on `"0"`. -/
def loopRuntime0 : TMRuntime :=
  { spec := infiniteLoopSpec, tape := ["0"], head := 0, state := "q0"
    steps := 0 }

/-- Witness for C9 at the concrete input `"0"` after three iterations. -/
theorem infinite_loop_never_halts_witness :
    (stepN 3 loopRuntime0).state = "q0" ∧
    halted (stepN 3 loopRuntime0) = false ∧
    (step (stepN 3 loopRuntime0)).2 = true :=
  infinite_loop_never_halts "0" (by decide) loopRuntime0 rfl 3

end TM
